import Mathlib

/-!
# Verification of the CulturalVoting contract (Round-Based Encrypted Tally)

Shallow embedding of the `CulturalVoting` Solidity contract
(`src/docs/cultural-voting.md`, `pragma solidity ^0.8.24`).

Modelling conventions:
* `address` and `uint8` / `uint256` values are `Nat`; where the contract's
  checked `uint8` arithmetic can overflow (Solidity 0.8 panics and reverts the
  transaction), the embedding returns `Except.error Err.Overflow`.
* storage mappings become total functions with Solidity's zero-initialised
  defaults;
* every external function takes the transaction context (`msg.sender`,
  `block.timestamp`) as explicit arguments and returns `Except Err State`:
  a revert is `Except.error` and leaves the state unchanged (all-or-nothing);
* the FHE handle produced by `FHE.asEuint8 score` is opaque to the contract;
  it is modelled as the `Nat` it deterministically encrypts;
* the decryption request issued by `FHE.requestDecryption` is modelled as an
  extra `Option (List Nat)` output of `endVotingRound` carrying the ordered
  batch of encrypted handles (`none` when no request is issued).
-/

namespace CulturalVoting

/-- Revert reasons of the contract, one constructor per distinct `require`
message plus `Overflow` for Solidity 0.8 checked-arithmetic panics and
`NotFound` for the spec-modelled registry deactivation. -/
inductive Err where
  /-- `"Not authorized"` (the `onlyAdmin` modifier). -/
  | NotAuthorized
  /-- `"Not authorized to vote"` (the `onlyAuthorizedVoter` modifier). -/
  | NotAuthorizedToVote
  /-- `"Voting not active"` (the `onlyDuringVoting` modifier / `endVotingRound`). -/
  | VotingNotActive
  /-- `"Voting already active"` in `startVotingRound`. -/
  | VotingAlreadyActive
  /-- `"No projects selected"` in `startVotingRound`. -/
  | NoProjectsSelected
  /-- `"Project not active"` in `startVotingRound`. -/
  | ProjectNotActive
  /-- `"Score must be between 1-10"` in `submitVote`. -/
  | ScoreOutOfRange
  /-- `"Project not in current round"` in `submitVote`. -/
  | ProjectNotInRound
  /-- `"Already voted for this project"` in `submitVote`. -/
  | AlreadyVoted
  /-- `"Results already revealed"` in `endVotingRound`. -/
  | ResultsAlreadyRevealed
  /-- Solidity 0.8 checked-arithmetic panic (uint8 overflow). -/
  | Overflow
  /-- Spec-level `NotFound` for the registry `deactivate` operation. -/
  | NotFound
  deriving DecidableEq, Repr

/-- `struct CulturalProject`. -/
structure CulturalProject where
  name : String
  description : String
  category : String
  proposer : Nat
  isActive : Bool
  proposalTime : Nat
  deriving DecidableEq, Repr

/-- Solidity zero value of `CulturalProject` (unset mapping slot). -/
def defaultProject : CulturalProject :=
  { name := "", description := "", category := "", proposer := 0,
    isActive := false, proposalTime := 0 }

/-- `struct Vote`; the `euint8 encryptedScore` handle is modelled as the `Nat`
it encrypts. -/
structure Vote where
  encryptedScore : Nat
  hasVoted : Bool
  timestamp : Nat
  deriving DecidableEq, Repr

/-- Solidity zero value of `Vote` (unset mapping slot). -/
def defaultVote : Vote :=
  { encryptedScore := 0, hasVoted := false, timestamp := 0 }

/-- `struct VotingRound`. -/
structure VotingRound where
  projectIds : List Nat
  votingActive : Bool
  resultsRevealed : Bool
  startTime : Nat
  endTime : Nat
  voters : List Nat
  winningProjectId : Nat
  maxScore : Nat
  deriving DecidableEq, Repr

/-- Solidity zero value of `VotingRound` (unset mapping slot). -/
def defaultRound : VotingRound :=
  { projectIds := [], votingActive := false, resultsRevealed := false,
    startTime := 0, endTime := 0, voters := [], winningProjectId := 0,
    maxScore := 0 }

/-- The full contract storage. -/
structure State where
  admin : Nat
  currentVotingRound : Nat
  projects : Nat → CulturalProject
  votingRounds : Nat → VotingRound
  votes : Nat → Nat → Nat → Vote
  authorizedVoters : Nat → Bool
  totalProjects : Nat

/-- The constructor: `admin = msg.sender; currentVotingRound = 1;
authorizedVoters[msg.sender] = true;`. -/
def initialState (deployer : Nat) : State :=
  { admin := deployer
    currentVotingRound := 1
    projects := fun _ => defaultProject
    votingRounds := fun _ => defaultRound
    votes := fun _ _ _ => defaultVote
    authorizedVoters := fun a => a = deployer
    totalProjects := 0 }

/-- `proposeProject`: increments `totalProjects` (checked uint8, reverts at
255) and stores the new project under the fresh id. -/
def proposeProject (sender time : Nat) (nm ds ct : String) (s : State) :
    Except Err State :=
  if 255 ≤ s.totalProjects then .error .Overflow
  else
    .ok { s with
      totalProjects := s.totalProjects + 1
      projects := fun p =>
        if p = s.totalProjects + 1 then
          { name := nm, description := ds, category := ct, proposer := sender,
            isActive := true, proposalTime := time }
        else s.projects p }

/-- `authorizeVoter` (admin only). -/
def authorizeVoter (sender voter : Nat) (s : State) : Except Err State :=
  if sender = s.admin then
    .ok { s with authorizedVoters := fun a =>
            if a = voter then true else s.authorizedVoters a }
  else .error .NotAuthorized

/-- `revokeVoter` (admin only). -/
def revokeVoter (sender voter : Nat) (s : State) : Except Err State :=
  if sender = s.admin then
    .ok { s with authorizedVoters := fun a =>
            if a = voter then false else s.authorizedVoters a }
  else .error .NotAuthorized

/-- `startVotingRound`: admin only, requires no active round, a non-empty id
list, and every listed project active; overwrites the current round slot with
a fresh `VotingRound` snapshotting `pids` in order. -/
def startVotingRound (sender time : Nat) (pids : List Nat) (s : State) :
    Except Err State :=
  if sender = s.admin then
    if (s.votingRounds s.currentVotingRound).votingActive then
      .error .VotingAlreadyActive
    else if pids = [] then .error .NoProjectsSelected
    else if pids.all (fun p => (s.projects p).isActive) then
      .ok { s with votingRounds := fun r =>
              if r = s.currentVotingRound then
                { projectIds := pids, votingActive := true,
                  resultsRevealed := false, startTime := time, endTime := 0,
                  voters := [], winningProjectId := 0, maxScore := 0 }
              else s.votingRounds r }
    else .error .ProjectNotActive
  else .error .NotAuthorized

/-- `_addVoterToRound`: appends the voter to the round's voter list unless
already present (set semantics, insertion order). -/
def addVoterToRound (voter : Nat) (round : VotingRound) : VotingRound :=
  if voter ∈ round.voters then round
  else { round with voters := round.voters ++ [voter] }

/-- `submitVote`: modifiers `onlyAuthorizedVoter` then `onlyDuringVoting`
(checked in that order), then the score-range, project-in-round and
not-already-voted requires; records the vote and the voter. -/
def submitVote (sender time pid score : Nat) (s : State) : Except Err State :=
  if s.authorizedVoters sender then
    if (s.votingRounds s.currentVotingRound).votingActive then
      if 1 ≤ score ∧ score ≤ 10 then
        if pid ∈ (s.votingRounds s.currentVotingRound).projectIds then
          if (s.votes s.currentVotingRound pid sender).hasVoted then
            .error .AlreadyVoted
          else
            .ok { s with
              votes := fun r p v =>
                if r = s.currentVotingRound ∧ p = pid ∧ v = sender then
                  { encryptedScore := score, hasVoted := true,
                    timestamp := time }
                else s.votes r p v
              votingRounds := fun r =>
                if r = s.currentVotingRound then
                  addVoterToRound sender (s.votingRounds r)
                else s.votingRounds r }
        else .error .ProjectNotInRound
      else .error .ScoreOutOfRange
    else .error .VotingNotActive
  else .error .NotAuthorizedToVote

/-- The ordered decryption batch built by `_requestResultsDecryption`:
projects in snapshot order, voters in insertion order within each project,
keeping exactly the recorded votes. -/
def roundBatch (s : State) : List Nat :=
  let cur := s.currentVotingRound
  let round := s.votingRounds cur
  (round.projectIds.map (fun pid =>
    (round.voters.filter (fun v => (s.votes cur pid v).hasVoted)).map
      (fun v => (s.votes cur pid v).encryptedScore))).flatten

/-- `_finalizeResults`: writes the winner fields of the current round, sets
`resultsRevealed`, and increments `currentVotingRound` (checked uint8: the
whole transaction reverts when the counter is at 255). -/
def finalizeResults (winner maxSc : Nat) (s : State) : Except Err State :=
  if 255 ≤ s.currentVotingRound then .error .Overflow
  else
    .ok { s with
      currentVotingRound := s.currentVotingRound + 1
      votingRounds := fun r =>
        if r = s.currentVotingRound then
          { s.votingRounds r with
            winningProjectId := winner
            maxScore := maxSc
            resultsRevealed := true }
        else s.votingRounds r }

/-- The storage after the two writes at the top of `endVotingRound`
(`votingActive = false`, `endTime = block.timestamp` on the current round). -/
def closeRoundState (time : Nat) (s : State) : State :=
  { s with votingRounds := fun r =>
      if r = s.currentVotingRound then
        { s.votingRounds r with
          votingActive := false
          endTime := time }
      else s.votingRounds r }

/-- `endVotingRound`: admin only, requires an active, unrevealed round; marks
the round inactive with the end time, then `_requestResultsDecryption`:
issues a decryption request (`some batch`) when at least one vote was
recorded, otherwise finalizes immediately with a zero winner (`none`). -/
def endVotingRound (sender time : Nat) (s : State) :
    Except Err (State × Option (List Nat)) :=
  if sender = s.admin then
    if (s.votingRounds s.currentVotingRound).votingActive then
      if (s.votingRounds s.currentVotingRound).resultsRevealed then
        .error .ResultsAlreadyRevealed
      else
        if (roundBatch (closeRoundState time s)).length = 0 then
          match finalizeResults 0 0 (closeRoundState time s) with
          | .error e => .error e
          | .ok s2 => .ok (s2, none)
        else .ok (closeRoundState time s, some (roundBatch (closeRoundState time s)))
    else .error .VotingNotActive
  else .error .NotAuthorized

/-- Inner loop of `processResults` over one project's voters: for each
recorded vote, while plaintexts remain, add the next plaintext to the running
`uint8` project score (checked, reverts above 255) and advance the shared
score index. -/
def tallyVoters (scores : List Nat) (voted : Nat → Bool) :
    List Nat → Nat → Nat → Except Err (Nat × Nat)
  | [], i, ps => .ok (ps, i)
  | voter :: rest, i, ps =>
    if voted voter then
      if i < scores.length then
        if ps + scores.getD i 0 ≤ 255 then
          tallyVoters scores voted rest (i + 1) (ps + scores.getD i 0)
        else .error .Overflow
      else tallyVoters scores voted rest i ps
    else tallyVoters scores voted rest i ps

/-- Outer loop of `processResults` over the snapshot: accumulates each
project's score and keeps the strictly-greater running maximum (ties keep the
earlier project); the initial accumulator is `(0, 0)`. -/
def tallyProjects (scores : List Nat) (votedOn : Nat → Nat → Bool)
    (voters : List Nat) : List Nat → Nat → Nat → Nat → Except Err (Nat × Nat)
  | [], _, w, m => .ok (w, m)
  | pid :: rest, i, w, m =>
    match tallyVoters scores (votedOn pid) voters i 0 with
    | .error e => .error e
    | .ok (ps, i2) =>
      if m < ps then tallyProjects scores votedOn voters rest i2 pid ps
      else tallyProjects scores votedOn voters rest i2 w m

/-- The `(winningProject, maxTotalScore)` pair computed by the reduction loop
of `processResults` on the current round. -/
def tallyOutcome (scores : List Nat) (s : State) : Except Err (Nat × Nat) :=
  let cur := s.currentVotingRound
  let round := s.votingRounds cur
  tallyProjects scores (fun pid v => (s.votes cur pid v).hasVoted)
    round.voters round.projectIds 0 0 0

/-- `processResults`: the decryption callback. The body performs no caller,
round-state, requestId or length check: it reduces the supplied plaintexts
against the current round (guarding each read by `scoreIndex <
decryptedScores.length`) and finalizes the current round. -/
def processResults (sender requestId : Nat) (scores : List Nat) (s : State) :
    Except Err State :=
  match tallyOutcome scores s with
  | .error e => .error e
  | .ok (w, m) => finalizeResults w m s

/-- Modelled from the spec: the deployed `CulturalVoting` contract has no
entry-deactivation function (`DEVELOPER_GUIDE.md` only sketches a
`deactivateProject` as a future extension), so the registry `deactivate`
operation of spec section 4.1 is modelled from the spec's words: fails with
`Unauthorized` unless the caller is the administrator, fails with `NotFound`
if the entry id was never assigned, otherwise clears the entry's active flag
(a no-op when already inactive), leaving every other field unchanged. -/
def deactivate (sender entryId : Nat) (s : State) : Except Err State :=
  if sender = s.admin then
    if 1 ≤ entryId ∧ entryId ≤ s.totalProjects then
      .ok { s with projects := fun p =>
              if p = entryId then { s.projects p with isActive := false }
              else s.projects p }
    else .error .NotFound
  else .error .NotAuthorized

/-- One external transaction against the contract. -/
inductive Op where
  | propose (sender time : Nat) (nm ds ct : String)
  | authorize (sender voter : Nat)
  | revoke (sender voter : Nat)
  | startRound (sender time : Nat) (pids : List Nat)
  | submit (sender time pid score : Nat)
  | endRound (sender time : Nat)
  | process (sender requestId : Nat) (scores : List Nat)
  | deactivateOp (sender entryId : Nat)

/-- Semantics of one transaction (the decryption-request output of
`endVotingRound` is dropped; it is not contract storage). -/
def stepOp (s : State) : Op → Except Err State
  | .propose sender time nm ds ct => proposeProject sender time nm ds ct s
  | .authorize sender voter => authorizeVoter sender voter s
  | .revoke sender voter => revokeVoter sender voter s
  | .startRound sender time pids => startVotingRound sender time pids s
  | .submit sender time pid score => submitVote sender time pid score s
  | .endRound sender time => (endVotingRound sender time s).map Prod.fst
  | .process sender requestId scores => processResults sender requestId scores s
  | .deactivateOp sender entryId => deactivate sender entryId s

/-- A reverted transaction leaves the storage unchanged. -/
def applyOp (s : State) (op : Op) : State :=
  match stepOp s op with
  | .ok s2 => s2
  | .error _ => s

/-- Runs a sequence of transactions. -/
def runOps (s : State) : List Op → State
  | [] => s
  | op :: rest => runOps (applyOp s op) rest

/-- Observes the revert reason of a call (`none` when the call succeeded). -/
def errOf {α : Type} : Except Err α → Option Err
  | .error e => some e
  | .ok _ => none

/-! ### Spec-side description of the tally reduction (section 4.3 of the
spec): per-entry aggregates in snapshot order and the first entry achieving
the maximum aggregate. -/

/-- How many of the round's voters (in insertion order) have a recorded vote
on the given entry. -/
def votedCount (voted : Nat → Bool) (voters : List Nat) : Nat :=
  (voters.filter voted).length

/-- Sum of the `k` plaintext scores starting at position `i`. -/
def sliceSum (scores : List Nat) (i k : Nat) : Nat :=
  ((scores.drop i).take k).sum

/-- The per-entry aggregates, in snapshot order: each entry consumes its
votes' plaintexts as one contiguous slice, entries in snapshot order and
voters in insertion order within each entry. -/
def aggsFrom (scores : List Nat) (votedOn : Nat → Nat → Bool)
    (voters : List Nat) : List Nat → Nat → List (Nat × Nat)
  | [], _ => []
  | pid :: rest, i =>
    (pid, sliceSum scores i (votedCount (votedOn pid) voters)) ::
      aggsFrom scores votedOn voters rest
        (i + votedCount (votedOn pid) voters)

/-- The per-entry aggregates of the current round for the given plaintext
list. -/
def roundAggs (scores : List Nat) (s : State) : List (Nat × Nat) :=
  aggsFrom scores
    (fun pid v => (s.votes s.currentVotingRound pid v).hasVoted)
    (s.votingRounds s.currentVotingRound).voters
    (s.votingRounds s.currentVotingRound).projectIds 0

/-- Total number of recorded votes across the listed entries. -/
def totalVoted (votedOn : Nat → Nat → Bool) (voters : List Nat) :
    List Nat → Nat
  | [] => 0
  | pid :: rest =>
    votedCount (votedOn pid) voters + totalVoted votedOn voters rest

/-- The maximum aggregate (0 for an empty list). -/
def maxAggregate (l : List (Nat × Nat)) : Nat :=
  l.foldr (fun pr acc => max pr.2 acc) 0

/-- The first entry in snapshot order achieving the maximum aggregate. -/
def firstAchiever (l : List (Nat × Nat)) : Option Nat :=
  (l.find? (fun pr => maxAggregate l ≤ pr.2)).map Prod.fst

/-- The running strictly-greater maximum over the aggregate list, mirroring
the accumulator of the `processResults` loop. -/
def selectFold : List (Nat × Nat) → Nat × Nat → Nat × Nat
  | [], wm => wm
  | (p, sc) :: rest, (w, m) =>
    if m < sc then selectFold rest (p, sc) else selectFold rest (w, m)

/-! ### Concrete reachable scenario states used by counterexamples and
witnesses. The deployer (and administrator) is address `100`. -/

/-- One project proposed, no round opened yet. -/
def sProp : State :=
  runOps (initialState 100) [.propose 100 10 "a" "b" "c"]

/-- One project, an open round over it, no vote submitted. -/
def sOpenEmpty : State :=
  runOps (initialState 100) [.propose 100 10 "a" "b" "c", .startRound 100 11 [1]]

/-- One project, an open round over it, one vote (score 5) by the admin. -/
def sOpen1 : State :=
  runOps (initialState 100)
    [.propose 100 10 "a" "b" "c", .startRound 100 11 [1], .submit 100 12 1 5]

/-- Round closed after one vote: a decryption request for batch `[5]` is
pending, `currentVotingRound` is still 1. -/
def sPend : State :=
  runOps (initialState 100)
    [.propose 100 10 "a" "b" "c", .startRound 100 11 [1], .submit 100 12 1 5,
     .endRound 100 13]

/-- One project, an open round, two authorized voters who both voted on it. -/
def sTwo : State :=
  runOps (initialState 100)
    [.propose 100 10 "a" "b" "c", .authorize 100 7, .startRound 100 11 [1],
     .submit 100 12 1 5, .submit 7 12 1 6]

/-- 254 unchecked `processResults` calls: each one finalizes the (empty)
current round and increments the uint8 round counter, pumping it from 1 up
to its maximum 255. -/
def pumpOps : List Op := List.replicate 254 (.process 100 0 [])

/-- A reachable state with the round counter saturated at 255 and round 255
open over project 1 with no votes. -/
def sSaturated : State :=
  runOps (initialState 100)
    (pumpOps ++ [.propose 100 10 "a" "b" "c", .startRound 100 11 [1]])

/-- The entry id assigned by each successful `proposeProject` of a
transaction sequence, in execution order (failed proposals assign none). -/
def proposedIds (s : State) : List Op → List Nat
  | [] => []
  | op :: rest =>
    match op with
    | .propose sender time nm ds ct =>
      match proposeProject sender time nm ds ct s with
      | .ok s2 => (s.totalProjects + 1) :: proposedIds s2 rest
      | .error _ => proposedIds s rest
    | _ => proposedIds (applyOp s op) rest

/-! ### Basic lemmas -/

@[simp]
theorem toOption_ok {α : Type} (a : α) :
    (Except.ok a : Except Err α).toOption = some a := rfl

@[simp]
theorem toOption_error {α : Type} (e : Err) :
    (Except.error e : Except Err α).toOption = none := rfl

theorem flatten_map_nil {α β : Type} (l : List α) :
    (l.map (fun _ => ([] : List β))).flatten = [] := by
  induction l with
  | nil => rfl
  | cons a t ih => simp

/-- `finalizeResults` always succeeds below the uint8 counter bound, with the
explicit resulting storage. -/
theorem finalizeResults_ok (w m : Nat) (s : State)
    (h : s.currentVotingRound < 255) :
    finalizeResults w m s = .ok
      { s with
        currentVotingRound := s.currentVotingRound + 1
        votingRounds := fun r =>
          if r = s.currentVotingRound then
            { s.votingRounds r with
              winningProjectId := w
              maxScore := m
              resultsRevealed := true }
          else s.votingRounds r } := by
  unfold finalizeResults
  rw [if_neg (by omega)]

/-! ### Claim C4 -/

/-- Claim C4, counterexample: with the current round not Open, an
unauthorized participant's `submitVote` fails with the authorization error,
not with `NotActive` — the `onlyAuthorizedVoter` modifier runs before
`onlyDuringVoting`, so the claim's "for every participant (authorized or
not) … fails with NotActive" is false. Here address 55 calls `submitVote`
on the freshly deployed contract (round 1 not active). -/
theorem claim4_counterexample :
    errOf (submitVote 55 0 1 5 (initialState 100)) =
      some Err.NotAuthorizedToVote ∧
    Err.NotAuthorizedToVote ≠ Err.VotingNotActive := by
  constructor
  · rfl
  · decide

/-- Claim C4, amended: while the current round is not Open, every
`submitVote` call fails — with `NotActive` when the participant is
authorized, and with the `Unauthorized` voter error otherwise, because the
authorization modifier is checked first. -/
theorem claim4_amended (s : State) (sender time pid score : Nat)
    (h : (s.votingRounds s.currentVotingRound).votingActive = false) :
    submitVote sender time pid score s =
      .error (if s.authorizedVoters sender then Err.VotingNotActive
              else Err.NotAuthorizedToVote) := by
  unfold submitVote
  cases ha : s.authorizedVoters sender <;> simp [ha, h]

/-- Witness for `claim4_amended`: the admin (an authorized voter) calling
`submitVote` on the freshly deployed contract fails with `VotingNotActive`. -/
theorem claim4_amended_witness :
    ((initialState 100).votingRounds
        (initialState 100).currentVotingRound).votingActive = false ∧
    submitVote 100 0 1 5 (initialState 100) =
      .error (if (initialState 100).authorizedVoters 100 then
                Err.VotingNotActive
              else Err.NotAuthorizedToVote) :=
  ⟨by decide, claim4_amended (initialState 100) 100 0 1 5 (by decide)⟩

/-! ### Claim C10 -/

/-- Claim C10: the registry `deactivate` operation (modelled from the spec,
see `deactivate`) fails with `Unauthorized` unless the caller is the
administrator, fails with `NotFound` when the entry id was never assigned,
and otherwise clears the entry's active flag — succeeding also when the
entry is already inactive — leaving every other field of the entry and
every other entry unchanged. -/
theorem claim10_deactivate (s : State) (sender entryId : Nat) :
    (sender ≠ s.admin →
      deactivate sender entryId s = .error Err.NotAuthorized) ∧
    (sender = s.admin → ¬(1 ≤ entryId ∧ entryId ≤ s.totalProjects) →
      deactivate sender entryId s = .error Err.NotFound) ∧
    (sender = s.admin → 1 ≤ entryId → entryId ≤ s.totalProjects →
      (deactivate sender entryId s).toOption.map
          (fun s2 => ((s2.projects entryId).isActive,
            (s2.projects entryId).name, (s2.projects entryId).description,
            (s2.projects entryId).category, (s2.projects entryId).proposer,
            (s2.projects entryId).proposalTime, s2.totalProjects)) =
        some (false, (s.projects entryId).name,
          (s.projects entryId).description, (s.projects entryId).category,
          (s.projects entryId).proposer, (s.projects entryId).proposalTime,
          s.totalProjects)) ∧
    (sender = s.admin → 1 ≤ entryId → entryId ≤ s.totalProjects →
      ∀ q, q ≠ entryId →
        (deactivate sender entryId s).toOption.map (fun s2 => s2.projects q) =
          some (s.projects q)) := by
  refine ⟨?_, ?_, ?_, ?_⟩
  · intro h
    unfold deactivate
    rw [if_neg h]
  · intro h1 h2
    unfold deactivate
    rw [if_pos h1, if_neg h2]
  · intro h1 h2 h3
    unfold deactivate
    rw [if_pos h1, if_pos ⟨h2, h3⟩]
    simp only [Option.map_eq_some', Except.toOption]
    exact ⟨_, rfl, by simp⟩
  · intro h1 h2 h3 q hq
    unfold deactivate
    rw [if_pos h1, if_pos ⟨h2, h3⟩]
    simp only [Option.map_eq_some', Except.toOption]
    exact ⟨_, rfl, by simp [hq]⟩

/-- Witness for `claim10_deactivate`: the admin deactivates project 1 in the
one-project state `sProp`; the entry's metadata and the other slots are
untouched and a second deactivation would still be fine. -/
theorem claim10_deactivate_witness :
    (100 = sProp.admin ∧ 1 ≤ 1 ∧ 1 ≤ sProp.totalProjects) ∧
    (deactivate 100 1 sProp).toOption.map
        (fun s2 => ((s2.projects 1).isActive,
          (s2.projects 1).name, (s2.projects 1).description,
          (s2.projects 1).category, (s2.projects 1).proposer,
          (s2.projects 1).proposalTime, s2.totalProjects)) =
      some (false, (sProp.projects 1).name, (sProp.projects 1).description,
        (sProp.projects 1).category, (sProp.projects 1).proposer,
        (sProp.projects 1).proposalTime, sProp.totalProjects) :=
  ⟨⟨by decide, by decide, by decide⟩,
    (claim10_deactivate sProp 100 1).2.2.1 (by decide) (by decide) (by decide)⟩

/-! ### Claim C7 -/

/-- Claim C7: `startVotingRound` fails with `Unauthorized` for a non-admin
caller; for the admin it fails with `AlreadyActive` while a round is Open,
then with `EmptySelection` on an empty id list, then with `UnknownEntry`
(revert "Project not active") when some listed id is not a registered active
project — the checks run in exactly this order — and when none of these
hold it succeeds, storing the snapshot in order with `votingActive` set and
the voter list and winner fields reset to empty / zero. -/
theorem claim7_startRound (s : State) (sender time : Nat) (pids : List Nat) :
    (sender ≠ s.admin →
      startVotingRound sender time pids s = .error Err.NotAuthorized) ∧
    (sender = s.admin →
      (s.votingRounds s.currentVotingRound).votingActive = true →
      startVotingRound sender time pids s = .error Err.VotingAlreadyActive) ∧
    (sender = s.admin →
      (s.votingRounds s.currentVotingRound).votingActive = false →
      pids = [] →
      startVotingRound sender time pids s = .error Err.NoProjectsSelected) ∧
    (sender = s.admin →
      (s.votingRounds s.currentVotingRound).votingActive = false →
      pids ≠ [] → (∃ p ∈ pids, (s.projects p).isActive = false) →
      startVotingRound sender time pids s = .error Err.ProjectNotActive) ∧
    (sender = s.admin →
      (s.votingRounds s.currentVotingRound).votingActive = false →
      pids ≠ [] → (∀ p ∈ pids, (s.projects p).isActive = true) →
      (startVotingRound sender time pids s).toOption.map
          (fun s2 => (s2.votingRounds s.currentVotingRound,
            s2.currentVotingRound)) =
        some ({ projectIds := pids, votingActive := true,
                resultsRevealed := false, startTime := time, endTime := 0,
                voters := [], winningProjectId := 0, maxScore := 0 },
              s.currentVotingRound)) := by
  refine ⟨?_, ?_, ?_, ?_, ?_⟩
  · intro h
    unfold startVotingRound
    rw [if_neg h]
  · intro h1 h2
    unfold startVotingRound
    rw [if_pos h1]
    simp [h2]
  · intro h1 h2 h3
    unfold startVotingRound
    rw [if_pos h1]
    simp [h2, h3]
  · intro h1 h2 h3 h4
    unfold startVotingRound
    rw [if_pos h1]
    have hall : pids.all (fun p => (s.projects p).isActive) = false := by
      obtain ⟨p, hp, hpa⟩ := h4
      rw [Bool.eq_false_iff]
      intro hc
      rw [List.all_eq_true] at hc
      have := hc p hp
      rw [hpa] at this
      exact Bool.false_ne_true this
    simp [h2, h3, hall]
  · intro h1 h2 h3 h4
    unfold startVotingRound
    rw [if_pos h1]
    have hall : pids.all (fun p => (s.projects p).isActive) = true := by
      rw [List.all_eq_true]
      exact h4
    simp [h2, h3, hall]

/-- Witness for `claim7_startRound`: with one active project and no open
round (`sProp`), the admin's `startVotingRound [1]` succeeds and installs
the fresh round snapshotting `[1]`. -/
theorem claim7_startRound_witness :
    (100 = sProp.admin ∧
      (sProp.votingRounds sProp.currentVotingRound).votingActive = false ∧
      [1] ≠ ([] : List Nat) ∧
      (∀ p ∈ [1], (sProp.projects p).isActive = true)) ∧
    (startVotingRound 100 11 [1] sProp).toOption.map
        (fun s2 => (s2.votingRounds sProp.currentVotingRound,
          s2.currentVotingRound)) =
      some ({ projectIds := [1], votingActive := true,
              resultsRevealed := false, startTime := 11, endTime := 0,
              voters := [], winningProjectId := 0, maxScore := 0 },
            sProp.currentVotingRound) :=
  ⟨⟨by decide, by decide, by decide, by decide⟩,
    (claim7_startRound sProp 100 11 [1]).2.2.2.2 (by decide) (by decide)
      (by decide) (by decide)⟩

/-! ### Claim C8 -/

set_option maxRecDepth 8000 in
/-- Claim C8, counterexample: the claimed transition does not cover every
reachable Open round with an empty participant list. Unchecked
`processResults` calls can pump the uint8 round counter to 255
(`pumpOps`), after which round 255 can be opened; there the admin's
`endVotingRound` reverts with an arithmetic panic on the checked
`currentVotingRound++` inside `_finalizeResults` instead of transitioning
to Idle with a zero winner. -/
theorem claim8_counterexample :
    sSaturated.currentVotingRound = 255 ∧
    100 = sSaturated.admin ∧
    (sSaturated.votingRounds 255).votingActive = true ∧
    (sSaturated.votingRounds 255).resultsRevealed = false ∧
    (sSaturated.votingRounds 255).voters = [] ∧
    errOf (endVotingRound 100 20 sSaturated) = some Err.Overflow := by
  decide

/-- Claim C8, amended: `endVotingRound` called by the admin on an Open,
unrevealed round whose participant list is empty, with the round counter
below its uint8 maximum 255, issues no decryption request (the request
output is `none`) and finalizes in the same operation: the round ends with
`resultsRevealed = true`, winner fields `0`, `endTime` set to the call's
timestamp, `votingActive = false`, and the round counter incremented. At a
saturated counter the checked increment reverts the whole call instead
(see `claim8_counterexample`). -/
theorem claim8_endRound_empty (s : State) (sender time : Nat)
    (hadmin : sender = s.admin)
    (hactive : (s.votingRounds s.currentVotingRound).votingActive = true)
    (hrev : (s.votingRounds s.currentVotingRound).resultsRevealed = false)
    (hvoters : (s.votingRounds s.currentVotingRound).voters = [])
    (hcur : s.currentVotingRound < 255) :
    (endVotingRound sender time s).toOption.map
        (fun pr => (pr.2, pr.1.currentVotingRound,
          (pr.1.votingRounds s.currentVotingRound).resultsRevealed,
          (pr.1.votingRounds s.currentVotingRound).winningProjectId,
          (pr.1.votingRounds s.currentVotingRound).maxScore,
          (pr.1.votingRounds s.currentVotingRound).endTime,
          (pr.1.votingRounds s.currentVotingRound).votingActive)) =
      some (none, s.currentVotingRound + 1, true, 0, 0, time, false) := by
  subst hadmin
  have hb : roundBatch (closeRoundState time s) = [] := by
    unfold roundBatch closeRoundState
    simp [hvoters, flatten_map_nil]
  unfold endVotingRound
  rw [if_pos rfl, if_pos hactive, if_neg (by simp [hrev]),
    if_pos (by rw [hb]; rfl), finalizeResults_ok 0 0 (closeRoundState time s) hcur]
  simp [closeRoundState]

/-- Witness for `claim8_endRound_empty`: in `sOpenEmpty` (open round over
project 1, nobody voted) the admin closes the round at time 20 and the round
finalizes at once with a zero winner and no decryption request. -/
theorem claim8_endRound_empty_witness :
    (100 = sOpenEmpty.admin ∧
      (sOpenEmpty.votingRounds sOpenEmpty.currentVotingRound).votingActive
        = true ∧
      (sOpenEmpty.votingRounds sOpenEmpty.currentVotingRound).resultsRevealed
        = false ∧
      (sOpenEmpty.votingRounds sOpenEmpty.currentVotingRound).voters = [] ∧
      sOpenEmpty.currentVotingRound < 255) ∧
    (endVotingRound 100 20 sOpenEmpty).toOption.map
        (fun pr => (pr.2, pr.1.currentVotingRound,
          (pr.1.votingRounds sOpenEmpty.currentVotingRound).resultsRevealed,
          (pr.1.votingRounds sOpenEmpty.currentVotingRound).winningProjectId,
          (pr.1.votingRounds sOpenEmpty.currentVotingRound).maxScore,
          (pr.1.votingRounds sOpenEmpty.currentVotingRound).endTime,
          (pr.1.votingRounds sOpenEmpty.currentVotingRound).votingActive)) =
      some (none, sOpenEmpty.currentVotingRound + 1, true, 0, 0, 20, false) :=
  ⟨⟨by decide, by decide, by decide, by decide, by decide⟩,
    claim8_endRound_empty sOpenEmpty 100 20 (by decide) (by decide)
      (by decide) (by decide) (by decide)⟩

/-! ### Inversion lemmas: the exact storage produced by each successful
operation. -/

theorem proposeProject_ok {sender time : Nat} {nm ds ct : String}
    {s s2 : State} (h : proposeProject sender time nm ds ct s = .ok s2) :
    s2 = { s with
      totalProjects := s.totalProjects + 1
      projects := fun p =>
        if p = s.totalProjects + 1 then
          { name := nm, description := ds, category := ct, proposer := sender,
            isActive := true, proposalTime := time }
        else s.projects p } := by
  unfold proposeProject at h
  split at h
  · exact Except.noConfusion h
  · exact (Except.ok.inj h).symm

theorem authorizeVoter_ok {sender voter : Nat} {s s2 : State}
    (h : authorizeVoter sender voter s = .ok s2) :
    s2 = { s with authorizedVoters := fun a =>
            if a = voter then true else s.authorizedVoters a } := by
  unfold authorizeVoter at h
  split at h
  · exact (Except.ok.inj h).symm
  · exact Except.noConfusion h

theorem revokeVoter_ok {sender voter : Nat} {s s2 : State}
    (h : revokeVoter sender voter s = .ok s2) :
    s2 = { s with authorizedVoters := fun a =>
            if a = voter then false else s.authorizedVoters a } := by
  unfold revokeVoter at h
  split at h
  · exact (Except.ok.inj h).symm
  · exact Except.noConfusion h

theorem startVotingRound_ok {sender time : Nat} {pids : List Nat}
    {s s2 : State} (h : startVotingRound sender time pids s = .ok s2) :
    s2 = { s with votingRounds := fun r =>
            if r = s.currentVotingRound then
              { projectIds := pids, votingActive := true,
                resultsRevealed := false, startTime := time, endTime := 0,
                voters := [], winningProjectId := 0, maxScore := 0 }
            else s.votingRounds r } := by
  unfold startVotingRound at h
  repeat' split at h
  any_goals exact Except.noConfusion h
  exact (Except.ok.inj h).symm

theorem submitVote_ok {sender time pid score : Nat} {s s2 : State}
    (h : submitVote sender time pid score s = .ok s2) :
    ¬(s.votes s.currentVotingRound pid sender).hasVoted = true ∧
    s2 = { s with
      votes := fun r p v =>
        if r = s.currentVotingRound ∧ p = pid ∧ v = sender then
          { encryptedScore := score, hasVoted := true, timestamp := time }
        else s.votes r p v
      votingRounds := fun r =>
        if r = s.currentVotingRound then
          addVoterToRound sender (s.votingRounds r)
        else s.votingRounds r } := by
  unfold submitVote at h
  repeat' split at h
  any_goals exact Except.noConfusion h
  rename_i hnv
  exact ⟨hnv, (Except.ok.inj h).symm⟩

theorem finalizeResults_ok_inv {w m : Nat} {s s2 : State}
    (h : finalizeResults w m s = .ok s2) :
    s.currentVotingRound < 255 ∧
    s2 = { s with
      currentVotingRound := s.currentVotingRound + 1
      votingRounds := fun r =>
        if r = s.currentVotingRound then
          { s.votingRounds r with
            winningProjectId := w
            maxScore := m
            resultsRevealed := true }
        else s.votingRounds r } := by
  unfold finalizeResults at h
  split at h
  · exact Except.noConfusion h
  · rename_i hc
    exact ⟨by omega, (Except.ok.inj h).symm⟩

theorem endVotingRound_ok {sender time : Nat} {s : State}
    {pr : State × Option (List Nat)}
    (h : endVotingRound sender time s = .ok pr) :
    (∃ s2, finalizeResults 0 0 (closeRoundState time s) = .ok s2 ∧
      pr = (s2, none)) ∨
    pr = (closeRoundState time s,
          some (roundBatch (closeRoundState time s))) := by
  unfold endVotingRound at h
  repeat' split at h
  any_goals exact Except.noConfusion h
  · rename_i s2 heq
    exact Or.inl ⟨s2, heq, (Except.ok.inj h).symm⟩
  · exact Or.inr (Except.ok.inj h).symm

theorem processResults_ok {sender requestId : Nat} {scores : List Nat}
    {s s2 : State} (h : processResults sender requestId scores s = .ok s2) :
    ∃ w m, tallyOutcome scores s = .ok (w, m) ∧
      finalizeResults w m s = .ok s2 := by
  unfold processResults at h
  split at h
  · exact Except.noConfusion h
  · rename_i w m heq
    exact ⟨w, m, heq, h⟩

theorem deactivate_ok {sender entryId : Nat} {s s2 : State}
    (h : deactivate sender entryId s = .ok s2) :
    s2 = { s with projects := fun p =>
            if p = entryId then { s.projects p with isActive := false }
            else s.projects p } := by
  unfold deactivate at h
  repeat' split at h
  any_goals exact Except.noConfusion h
  exact (Except.ok.inj h).symm

/-! ### Claim C5 -/

/-- No transaction ever overwrites a recorded `Vote`: `submitVote` is the
only writer of the `votes` mapping and it is guarded by the
`hasVoted`-check. -/
theorem votes_applyOp_persist (s : State) (op : Op) (r p v : Nat)
    (h : (s.votes r p v).hasVoted = true) :
    (applyOp s op).votes r p v = s.votes r p v := by
  cases op with
  | propose sender time nm ds ct =>
    simp only [applyOp, stepOp]
    cases hst : proposeProject sender time nm ds ct s with
    | error e => rfl
    | ok s2 => rw [proposeProject_ok hst]
  | authorize sender voter =>
    simp only [applyOp, stepOp]
    cases hst : authorizeVoter sender voter s with
    | error e => rfl
    | ok s2 => rw [authorizeVoter_ok hst]
  | revoke sender voter =>
    simp only [applyOp, stepOp]
    cases hst : revokeVoter sender voter s with
    | error e => rfl
    | ok s2 => rw [revokeVoter_ok hst]
  | startRound sender time pids =>
    simp only [applyOp, stepOp]
    cases hst : startVotingRound sender time pids s with
    | error e => rfl
    | ok s2 => rw [startVotingRound_ok hst]
  | submit sender time pid score =>
    simp only [applyOp, stepOp]
    cases hst : submitVote sender time pid score s with
    | error e => rfl
    | ok s2 =>
      obtain ⟨hnv, hs2⟩ := submitVote_ok hst
      rw [hs2]
      by_cases hk : r = s.currentVotingRound ∧ p = pid ∧ v = sender
      · obtain ⟨e1, e2, e3⟩ := hk
        subst e1; subst e2; subst e3
        exact absurd h hnv
      · simp [hk]
  | endRound sender time =>
    simp only [applyOp, stepOp]
    cases hev : endVotingRound sender time s with
    | error e => rfl
    | ok pr =>
      rcases endVotingRound_ok hev with ⟨s2, hfin, hpr⟩ | hpr
      · obtain ⟨_, hs2⟩ := finalizeResults_ok_inv hfin
        rw [hpr, hs2]
        rfl
      · rw [hpr]
        rfl
  | process sender requestId scores =>
    simp only [applyOp, stepOp]
    cases hst : processResults sender requestId scores s with
    | error e => rfl
    | ok s2 =>
      obtain ⟨w, m, _, hfin⟩ := processResults_ok hst
      obtain ⟨_, hs2⟩ := finalizeResults_ok_inv hfin
      rw [hs2]
  | deactivateOp sender entryId =>
    simp only [applyOp, stepOp]
    cases hst : deactivate sender entryId s with
    | error e => rfl
    | ok s2 => rw [deactivate_ok hst]

/-- A recorded `Vote` persists, with all its fields, through any sequence of
transactions. -/
theorem votes_runOps_persist (ops : List Op) : ∀ (s : State) (r p v : Nat),
    (s.votes r p v).hasVoted = true →
    (runOps s ops).votes r p v = s.votes r p v := by
  induction ops with
  | nil => intro s r p v _; rfl
  | cons op rest ih =>
    intro s r p v h
    have h1 := votes_applyOp_persist s op r p v h
    have h2 : ((applyOp s op).votes r p v).hasVoted = true := by
      rw [h1]; exact h
    show (runOps (applyOp s op) rest).votes r p v = s.votes r p v
    rw [ih (applyOp s op) r p v h2, h1]

/-- Claim C5, counterexample: in `sPend` the triple
`(round 1, entry 1, participant 100)` already has a recorded Submission, yet
a later `submitVote` for the same triple fails with `VotingNotActive` (the
round was closed), not with `DuplicateSubmission` — so "every later
submitVote for the same triple fails with DuplicateSubmission" is false as
stated. -/
theorem claim5_counterexample :
    (sPend.votes 1 1 100).hasVoted = true ∧
    1 = sPend.currentVotingRound ∧
    errOf (submitVote 100 9 1 5 sPend) = some Err.VotingNotActive ∧
    Err.VotingNotActive ≠ Err.AlreadyVoted := by
  refine ⟨by decide, by decide, ?_, by decide⟩
  rfl

/-- Claim C5, amended: for every (round, entry, participant) triple at most
one Submission ever exists. Once a Submission is recorded it persists
unchanged (score and timestamp included) through every later transaction; a
later `submitVote` for the same triple (possible only while the triple's
round is still the current round) never succeeds, and it fails precisely
with `DuplicateSubmission` when it passes the earlier authorization,
round-activity, score-range and entry-in-round checks — otherwise it fails
with the corresponding earlier error. -/
theorem claim5_amended (s : State) (r p v time score : Nat) (ops : List Op)
    (h : (s.votes r p v).hasVoted = true) :
    (runOps s ops).votes r p v = s.votes r p v ∧
    (r = s.currentVotingRound →
      (submitVote v time p score s).isOk = false) ∧
    (r = s.currentVotingRound → s.authorizedVoters v = true →
      (s.votingRounds s.currentVotingRound).votingActive = true →
      1 ≤ score → score ≤ 10 →
      p ∈ (s.votingRounds s.currentVotingRound).projectIds →
      submitVote v time p score s = .error Err.AlreadyVoted) := by
  refine ⟨votes_runOps_persist ops s r p v h, ?_, ?_⟩
  · intro hr
    subst hr
    unfold submitVote
    repeat' split
    all_goals rfl
  · intro hr ha hact h1 h10 hmem
    subst hr
    unfold submitVote
    rw [if_pos ha, if_pos hact, if_pos ⟨h1, h10⟩, if_pos hmem, if_pos h]

/-- Witness for `claim5_amended` at the in-round state `sOpen1`: the admin
already voted on entry 1, so an immediate duplicate with a valid score fails
with `DuplicateSubmission`, and the recorded vote survives further
transactions. -/
theorem claim5_amended_witness :
    (sOpen1.votes 1 1 100).hasVoted = true ∧
    (runOps sOpen1 [.endRound 100 13]).votes 1 1 100 = sOpen1.votes 1 1 100 ∧
    (1 = sOpen1.currentVotingRound →
      (submitVote 100 14 1 7 sOpen1).isOk = false) ∧
    (1 = sOpen1.currentVotingRound → sOpen1.authorizedVoters 100 = true →
      (sOpen1.votingRounds sOpen1.currentVotingRound).votingActive = true →
      1 ≤ 7 → 7 ≤ 10 →
      1 ∈ (sOpen1.votingRounds sOpen1.currentVotingRound).projectIds →
      submitVote 100 14 1 7 sOpen1 = .error Err.AlreadyVoted) :=
  ⟨by decide,
    (claim5_amended sOpen1 1 1 100 14 7 [.endRound 100 13] (by decide)).1,
    (claim5_amended sOpen1 1 1 100 14 7 [.endRound 100 13] (by decide)).2.1,
    (claim5_amended sOpen1 1 1 100 14 7 [.endRound 100 13] (by decide)).2.2⟩

/-! ### Claim C1 -/

/-- Claim C1, counterexample: starting from the pending state `sPend`
(round 1 closed, decryption request for batch `[5]` outstanding),
`processResults` invoked twice with the same `requestId` 7 and the same
plaintexts succeeds both times — the contract performs no requestId
tracking, so the second call does not fail with `AlreadyProcessed`; it
finalizes round 2 as well and increments the counter to 3. -/
theorem claim1_counterexample :
    ((processResults 100 7 [5] sPend).bind
        (processResults 100 7 [5])).toOption.map
      (fun s2 => (s2.currentVotingRound,
        (s2.votingRounds 2).resultsRevealed,
        (s2.votingRounds 1).winningProjectId,
        (s2.votingRounds 1).maxScore)) =
      some (3, true, 1, 5) := by
  rfl

/-- Claim C1, amended: the contract performs no requestId tracking, so a
second `processResults` invocation (with the same requestId or any other)
succeeds rather than failing with `AlreadyProcessed`. The winner fields of
the round finalized by the first invocation are indeed unchanged by the
second call — but only because the first call advanced the round counter:
the second call finalizes the next round and increments the counter again. -/
theorem claim1_amended (s s1 s2 : State) (senderA ridA senderB ridB : Nat)
    (scoresA scoresB : List Nat)
    (h1 : processResults senderA ridA scoresA s = .ok s1)
    (h2 : processResults senderB ridB scoresB s1 = .ok s2) :
    s2.votingRounds s.currentVotingRound =
      s1.votingRounds s.currentVotingRound ∧
    (s1.votingRounds s.currentVotingRound).resultsRevealed = true ∧
    s1.currentVotingRound = s.currentVotingRound + 1 ∧
    s2.currentVotingRound = s.currentVotingRound + 2 ∧
    (s2.votingRounds (s.currentVotingRound + 1)).resultsRevealed = true := by
  obtain ⟨wa, ma, _, hfa⟩ := processResults_ok h1
  obtain ⟨_, hs1⟩ := finalizeResults_ok_inv hfa
  obtain ⟨wb, mb, _, hfb⟩ := processResults_ok h2
  obtain ⟨_, hs2⟩ := finalizeResults_ok_inv hfb
  have hcur1 : s1.currentVotingRound = s.currentVotingRound + 1 := by
    rw [hs1]
  refine ⟨?_, ?_, hcur1, ?_, ?_⟩
  · rw [hs2, hcur1]
    simp
  · rw [hs1]
    simp
  · rw [hs2, hcur1]
  · rw [hs2, hcur1]
    simp

/-- Witness for `claim1_amended` at the concrete double invocation of
`claim1_counterexample`. -/
theorem claim1_amended_witness :
    processResults 100 7 [5] sPend = .ok (applyOp sPend (.process 100 7 [5])) ∧
    processResults 100 7 [5] (applyOp sPend (.process 100 7 [5])) =
      .ok (applyOp (applyOp sPend (.process 100 7 [5])) (.process 100 7 [5])) ∧
    (applyOp (applyOp sPend (.process 100 7 [5]))
          (.process 100 7 [5])).votingRounds sPend.currentVotingRound =
      (applyOp sPend (.process 100 7 [5])).votingRounds
        sPend.currentVotingRound ∧
    ((applyOp sPend (.process 100 7 [5])).votingRounds
        sPend.currentVotingRound).resultsRevealed = true ∧
    (applyOp sPend (.process 100 7 [5])).currentVotingRound =
      sPend.currentVotingRound + 1 ∧
    (applyOp (applyOp sPend (.process 100 7 [5]))
        (.process 100 7 [5])).currentVotingRound =
      sPend.currentVotingRound + 2 ∧
    ((applyOp (applyOp sPend (.process 100 7 [5]))
          (.process 100 7 [5])).votingRounds
        (sPend.currentVotingRound + 1)).resultsRevealed = true := by
  have h1 : processResults 100 7 [5] sPend =
      .ok (applyOp sPend (.process 100 7 [5])) := rfl
  have h2 : processResults 100 7 [5] (applyOp sPend (.process 100 7 [5])) =
      .ok (applyOp (applyOp sPend (.process 100 7 [5]))
        (.process 100 7 [5])) := rfl
  obtain ⟨c1, c2, c3, c4, c5⟩ := claim1_amended sPend
    (applyOp sPend (.process 100 7 [5]))
    (applyOp (applyOp sPend (.process 100 7 [5])) (.process 100 7 [5]))
    100 7 100 7 [5] [5] h1 h2
  exact ⟨h1, h2, c1, c2, c3, c4, c5⟩

/-! ### The tally-reduction loops of `processResults` -/

theorem drop_getD_cons {scores : List Nat} {i : Nat} (hi : i < scores.length) :
    scores.drop i = scores.getD i 0 :: scores.drop (i + 1) := by
  rw [List.getD_eq_getElem scores 0 hi]
  exact List.drop_eq_getElem_cons hi

theorem votedCount_cons_pos (voted : Nat → Bool) (voter : Nat)
    (rest : List Nat) (hv : voted voter = true) :
    votedCount voted (voter :: rest) = votedCount voted rest + 1 := by
  simp [votedCount, List.filter_cons, hv]

theorem votedCount_cons_neg (voted : Nat → Bool) (voter : Nat)
    (rest : List Nat) (hv : ¬voted voter = true) :
    votedCount voted (voter :: rest) = votedCount voted rest := by
  simp [votedCount, List.filter_cons, hv]

/-- When the plaintexts cover the remaining votes and the slice fits in a
uint8, the voter loop returns exactly the accumulated slice sum and the
advanced index. -/
theorem tallyVoters_exact (scores : List Nat) (voted : Nat → Bool) :
    ∀ (voters : List Nat) (i ps : Nat),
      i + votedCount voted voters ≤ scores.length →
      ps + sliceSum scores i (votedCount voted voters) ≤ 255 →
      tallyVoters scores voted voters i ps =
        .ok (ps + sliceSum scores i (votedCount voted voters),
             i + votedCount voted voters) := by
  intro voters
  induction voters with
  | nil =>
    intro i ps _ _
    simp [tallyVoters, votedCount, sliceSum]
  | cons voter rest ih =>
    intro i ps hlen hsum
    by_cases hv : voted voter = true
    · rw [votedCount_cons_pos voted voter rest hv] at hlen hsum ⊢
      have hi : i < scores.length := by omega
      have hslice : sliceSum scores i (votedCount voted rest + 1) =
          scores.getD i 0 + sliceSum scores (i + 1) (votedCount voted rest) := by
        unfold sliceSum
        rw [drop_getD_cons hi]
        simp
      rw [hslice] at hsum ⊢
      unfold tallyVoters
      rw [if_pos hv, if_pos hi, if_pos (show ps + scores.getD i 0 ≤ 255 by omega)]
      rw [ih (i + 1) (ps + scores.getD i 0) (by omega) (by omega)]
      have e1 : ps + scores.getD i 0 + sliceSum scores (i + 1)
            (votedCount voted rest) =
          ps + (scores.getD i 0 + sliceSum scores (i + 1)
            (votedCount voted rest)) := by omega
      have e2 : i + 1 + votedCount voted rest =
          i + (votedCount voted rest + 1) := by omega
      rw [e1, e2]
    · rw [votedCount_cons_neg voted voter rest hv] at hlen hsum ⊢
      unfold tallyVoters
      rw [if_neg hv]
      exact ih i ps hlen hsum

/-- The voter loop advances the score index by at most the number of
recorded votes. -/
theorem tallyVoters_index_le (scores : List Nat) (voted : Nat → Bool) :
    ∀ (voters : List Nat) (i ps ps2 i2 : Nat),
      tallyVoters scores voted voters i ps = .ok (ps2, i2) →
      i ≤ i2 ∧ i2 ≤ i + votedCount voted voters := by
  intro voters
  induction voters with
  | nil =>
    intro i ps ps2 i2 h
    have h2 : i = i2 := by
      simp [tallyVoters] at h
      omega
    simp [votedCount, h2]
  | cons voter rest ih =>
    intro i ps ps2 i2 h
    unfold tallyVoters at h
    by_cases hv : voted voter = true
    · rw [if_pos hv] at h
      by_cases hi : i < scores.length
      · rw [if_pos hi] at h
        by_cases hov : ps + scores.getD i 0 ≤ 255
        · rw [if_pos hov] at h
          have := ih (i + 1) _ _ _ h
          have hc := votedCount_cons_pos voted voter rest hv
          omega
        · rw [if_neg hov] at h
          exact Except.noConfusion h
      · rw [if_neg hi] at h
        have := ih i _ _ _ h
        have hc := votedCount_cons_pos voted voter rest hv
        omega
    · rw [if_neg hv] at h
      have := ih i _ _ _ h
      have hc := votedCount_cons_neg voted voter rest hv
      omega

/-- The voter loop never reverts while the remaining plaintext mass fits in
a uint8, and the bound is maintained. -/
theorem tallyVoters_bounded_ok (scores : List Nat) (voted : Nat → Bool) :
    ∀ (voters : List Nat) (i ps : Nat),
      ps + (scores.drop i).sum ≤ 255 →
      ∃ ps2 i2, tallyVoters scores voted voters i ps = .ok (ps2, i2) ∧
        ps2 + (scores.drop i2).sum ≤ 255 := by
  intro voters
  induction voters with
  | nil =>
    intro i ps h
    exact ⟨ps, i, rfl, h⟩
  | cons voter rest ih =>
    intro i ps h
    unfold tallyVoters
    by_cases hv : voted voter = true
    · rw [if_pos hv]
      by_cases hi : i < scores.length
      · rw [if_pos hi]
        have hsum : scores.getD i 0 + (scores.drop (i + 1)).sum =
            (scores.drop i).sum := by
          rw [drop_getD_cons hi]
          simp
        rw [if_pos (show ps + scores.getD i 0 ≤ 255 by omega)]
        exact ih (i + 1) (ps + scores.getD i 0) (by omega)
      · rw [if_neg hi]
        exact ih i ps h
    · rw [if_neg hv]
      exact ih i ps h

/-- A longer plaintext list behaves identically while the original list
covers the remaining votes: the extra tail is never read. -/
theorem tallyVoters_append (scores extra : List Nat) (voted : Nat → Bool) :
    ∀ (voters : List Nat) (i ps : Nat),
      i + votedCount voted voters ≤ scores.length →
      tallyVoters (scores ++ extra) voted voters i ps =
        tallyVoters scores voted voters i ps := by
  intro voters
  induction voters with
  | nil => intro i ps _; rfl
  | cons voter rest ih =>
    intro i ps hlen
    unfold tallyVoters
    by_cases hv : voted voter = true
    · rw [if_pos hv, if_pos hv]
      have hc := votedCount_cons_pos voted voter rest hv
      have hi : i < scores.length := by omega
      have hia : i < (scores ++ extra).length := by
        rw [List.length_append]
        omega
      rw [if_pos hi, if_pos hia, List.getD_append scores extra 0 i hi]
      by_cases hov : ps + scores.getD i 0 ≤ 255
      · rw [if_pos hov, if_pos hov]
        exact ih (i + 1) (ps + scores.getD i 0) (by omega)
      · rw [if_neg hov, if_neg hov]
    · rw [if_neg hv, if_neg hv]
      have hc := votedCount_cons_neg voted voter rest hv
      exact ih i ps (by omega)

/-- When the plaintexts cover all remaining votes and every aggregate fits
in a uint8, the project loop computes exactly the strictly-greater running
maximum over the per-entry aggregates. -/
theorem tallyProjects_exact (scores : List Nat) (votedOn : Nat → Nat → Bool)
    (voters : List Nat) :
    ∀ (pids : List Nat) (i w m : Nat),
      i + totalVoted votedOn voters pids ≤ scores.length →
      (∀ pr ∈ aggsFrom scores votedOn voters pids i, pr.2 ≤ 255) →
      tallyProjects scores votedOn voters pids i w m =
        .ok (selectFold (aggsFrom scores votedOn voters pids i) (w, m)) := by
  intro pids
  induction pids with
  | nil => intro i w m _ _; rfl
  | cons pid rest ih =>
    intro i w m hlen hb
    have htv : totalVoted votedOn voters (pid :: rest) =
        votedCount (votedOn pid) voters +
          totalVoted votedOn voters rest := rfl
    have hslice : sliceSum scores i (votedCount (votedOn pid) voters) ≤ 255 :=
      hb _ (List.mem_cons_self _ _)
    have hb2 : ∀ pr ∈ aggsFrom scores votedOn voters rest
        (i + votedCount (votedOn pid) voters), pr.2 ≤ 255 :=
      fun pr hpr => hb pr (List.mem_cons_of_mem _ hpr)
    unfold tallyProjects
    rw [tallyVoters_exact scores (votedOn pid) voters i 0 (by omega)
      (by omega)]
    dsimp only
    have hcons : aggsFrom scores votedOn voters (pid :: rest) i =
        (pid, sliceSum scores i (votedCount (votedOn pid) voters)) ::
          aggsFrom scores votedOn voters rest
            (i + votedCount (votedOn pid) voters) := rfl
    rw [hcons]
    have hz : (0 : Nat) + sliceSum scores i (votedCount (votedOn pid) voters)
        = sliceSum scores i (votedCount (votedOn pid) voters) :=
      Nat.zero_add _
    rw [hz]
    by_cases hcmp : m < sliceSum scores i (votedCount (votedOn pid) voters)
    · rw [if_pos hcmp,
        show selectFold
            ((pid, sliceSum scores i (votedCount (votedOn pid) voters)) ::
              aggsFrom scores votedOn voters rest
                (i + votedCount (votedOn pid) voters)) (w, m) =
          selectFold (aggsFrom scores votedOn voters rest
            (i + votedCount (votedOn pid) voters))
            (pid, sliceSum scores i (votedCount (votedOn pid) voters))
          from by rw [selectFold, if_pos hcmp]]
      exact ih (i + votedCount (votedOn pid) voters) pid _ (by omega) hb2
    · rw [if_neg hcmp,
        show selectFold
            ((pid, sliceSum scores i (votedCount (votedOn pid) voters)) ::
              aggsFrom scores votedOn voters rest
                (i + votedCount (votedOn pid) voters)) (w, m) =
          selectFold (aggsFrom scores votedOn voters rest
            (i + votedCount (votedOn pid) voters)) (w, m)
          from by rw [selectFold, if_neg hcmp]]
      exact ih (i + votedCount (votedOn pid) voters) w m (by omega) hb2

/-- The project loop never reverts while the total plaintext mass fits in a
uint8. -/
theorem tallyProjects_bounded_ok (scores : List Nat)
    (votedOn : Nat → Nat → Bool) (voters : List Nat) :
    ∀ (pids : List Nat) (i w m : Nat),
      (scores.drop i).sum ≤ 255 →
      ∃ w2 m2, tallyProjects scores votedOn voters pids i w m =
        .ok (w2, m2) := by
  intro pids
  induction pids with
  | nil => intro i w m _; exact ⟨w, m, rfl⟩
  | cons pid rest ih =>
    intro i w m h
    obtain ⟨ps2, i2, hok, hb2⟩ :=
      tallyVoters_bounded_ok scores (votedOn pid) voters i 0 (by omega)
    unfold tallyProjects
    rw [hok]
    dsimp only
    by_cases hcmp : m < ps2
    · rw [if_pos hcmp]
      exact ih i2 pid ps2 (by omega)
    · rw [if_neg hcmp]
      exact ih i2 w m (by omega)

/-- A longer plaintext list behaves identically over the whole reduction
while the original list covers all recorded votes. -/
theorem tallyProjects_append (scores extra : List Nat)
    (votedOn : Nat → Nat → Bool) (voters : List Nat) :
    ∀ (pids : List Nat) (i w m : Nat),
      i + totalVoted votedOn voters pids ≤ scores.length →
      tallyProjects (scores ++ extra) votedOn voters pids i w m =
        tallyProjects scores votedOn voters pids i w m := by
  intro pids
  induction pids with
  | nil => intro i w m _; rfl
  | cons pid rest ih =>
    intro i w m hlen
    have htv : totalVoted votedOn voters (pid :: rest) =
        votedCount (votedOn pid) voters +
          totalVoted votedOn voters rest := rfl
    unfold tallyProjects
    rw [tallyVoters_append scores extra (votedOn pid) voters i 0 (by omega)]
    cases hok : tallyVoters scores (votedOn pid) voters i 0 with
    | error e => rfl
    | ok pr =>
      obtain ⟨ps2, i2⟩ := pr
      obtain ⟨hi1, hi2⟩ :=
        tallyVoters_index_le scores (votedOn pid) voters i 0 ps2 i2 hok
      dsimp only
      by_cases hcmp : m < ps2
      · simp only [if_pos hcmp]
        exact ih i2 pid ps2 (by omega)
      · simp only [if_neg hcmp]
        exact ih i2 w m (by omega)

/-! ### The strictly-greater running maximum selects the first achiever of
the maximum aggregate. -/

theorem maxAggregate_cons (p sc : Nat) (tl : List (Nat × Nat)) :
    maxAggregate ((p, sc) :: tl) = max sc (maxAggregate tl) := rfl

theorem mem_le_maxAggregate :
    ∀ (l : List (Nat × Nat)) (pr : Nat × Nat), pr ∈ l →
      pr.2 ≤ maxAggregate l := by
  intro l
  induction l with
  | nil => intro pr h; exact absurd h (List.not_mem_nil pr)
  | cons hd tl ih =>
    intro pr h
    obtain ⟨p, sc⟩ := hd
    rw [maxAggregate_cons]
    rcases List.mem_cons.mp h with h1 | h1
    · rw [h1]
      exact le_max_left _ _
    · exact le_trans (ih pr h1) (le_max_right _ _)

theorem maxAggregate_attained :
    ∀ l : List (Nat × Nat), 0 < maxAggregate l →
      ∃ pr ∈ l, maxAggregate l = pr.2 := by
  intro l
  induction l with
  | nil => intro h; simp [maxAggregate] at h
  | cons hd tl ih =>
    intro h
    obtain ⟨p, sc⟩ := hd
    rw [maxAggregate_cons] at h ⊢
    by_cases hc : maxAggregate tl ≤ sc
    · exact ⟨(p, sc), List.mem_cons_self _ _, by omega⟩
    · have h2 : 0 < maxAggregate tl := by omega
      obtain ⟨pr, hmem, he⟩ := ih h2
      exact ⟨pr, List.mem_cons_of_mem _ hmem, by omega⟩

theorem selectFold_stay :
    ∀ (l : List (Nat × Nat)) (w m : Nat), maxAggregate l ≤ m →
      selectFold l (w, m) = (w, m) := by
  intro l
  induction l with
  | nil => intro w m _; rfl
  | cons hd tl ih =>
    intro w m h
    obtain ⟨p, sc⟩ := hd
    rw [maxAggregate_cons] at h
    rw [selectFold, if_neg (show ¬m < sc by omega)]
    exact ih w m (by omega)

/-- With a running maximum strictly below the list's maximum aggregate, the
strictly-greater fold lands on the first element achieving the maximum. -/
theorem selectFold_find :
    ∀ (l : List (Nat × Nat)) (w m : Nat), m < maxAggregate l →
      selectFold l (w, m) =
        (l.find? (fun pr => maxAggregate l ≤ pr.2)).getD (0, 0) := by
  intro l
  induction l with
  | nil => intro w m h; simp [maxAggregate] at h
  | cons hd tl ih =>
    intro w m hm
    obtain ⟨p, sc⟩ := hd
    rw [maxAggregate_cons] at hm
    by_cases hsc : m < sc
    · rw [selectFold, if_pos hsc]
      by_cases hrest : maxAggregate tl ≤ sc
      · have h1 : maxAggregate ((p, sc) :: tl) = sc := by
          rw [maxAggregate_cons]
          omega
        rw [List.find?_cons_of_pos tl
          (show decide (maxAggregate ((p, sc) :: tl) ≤ (p, sc).2) = true by
            rw [h1]
            simp)]
        exact selectFold_stay tl p sc hrest
      · have h2 : maxAggregate ((p, sc) :: tl) = maxAggregate tl := by
          rw [maxAggregate_cons]
          omega
        rw [List.find?_cons_of_neg tl
          (show ¬decide (maxAggregate ((p, sc) :: tl) ≤ (p, sc).2) = true by
            rw [h2]
            simp
            omega)]
        rw [h2]
        exact ih p sc (by omega)
    · rw [selectFold, if_neg hsc]
      have h2 : maxAggregate ((p, sc) :: tl) = maxAggregate tl := by
        rw [maxAggregate_cons]
        omega
      rw [List.find?_cons_of_neg tl
        (show ¬decide (maxAggregate ((p, sc) :: tl) ≤ (p, sc).2) = true by
          rw [h2]
          simp
          omega)]
      rw [h2]
      exact ih w m (by omega)

theorem batch_length_aux (votedOn : Nat → Nat → Bool) (f : Nat → Nat → Nat)
    (voters : List Nat) :
    ∀ pids : List Nat,
      ((pids.map (fun pid =>
        ((voters.filter (votedOn pid)).map (f pid)))).flatten).length =
      totalVoted votedOn voters pids := by
  intro pids
  induction pids with
  | nil => rfl
  | cons pid rest ih =>
    simp only [List.map_cons, List.flatten_cons, List.length_append,
      List.length_map, totalVoted, votedCount, ih]

/-- The decryption batch holds exactly one scalar per recorded vote. -/
theorem roundBatch_length (s : State) :
    (roundBatch s).length =
      totalVoted
        (fun pid v => (s.votes s.currentVotingRound pid v).hasVoted)
        (s.votingRounds s.currentVotingRound).voters
        (s.votingRounds s.currentVotingRound).projectIds :=
  batch_length_aux _ _ _ _

/-! ### Claim C2 -/

/-- Claim C2, counterexample: `processResults` does not succeed on every
plaintext array — in the reachable state `sTwo` (two recorded votes on
project 1) the plaintexts `[200, 200]` drive the checked uint8 accumulation
`projectScore += decryptedScores[i]` to 400 > 255 and the whole call reverts
with an arithmetic panic. -/
theorem claim2_counterexample :
    errOf (processResults 100 0 [200, 200] sTwo) = some Err.Overflow := by
  rfl

/-- Claim C2, amended: provided the checked uint8 arithmetic cannot overflow
(the plaintext mass fits in a uint8 and the round counter is below 255),
`processResults` succeeds for every caller, requestId and round state — it
performs no caller, round-state or requestId check — sets the current
round's `resultsRevealed`, writes the reduction outcome into its winner
fields, and increments `currentVotingRound` by exactly one. -/
theorem claim2_amended (s : State) (sender rid : Nat) (scores : List Nat)
    (hsum : scores.sum ≤ 255) (hcur : s.currentVotingRound < 255) :
    (processResults sender rid scores s).toOption.map
        (fun s2 => (s2.currentVotingRound,
          (s2.votingRounds s.currentVotingRound).resultsRevealed)) =
      some (s.currentVotingRound + 1, true) ∧
    (processResults sender rid scores s).toOption.map
        (fun s2 => ((s2.votingRounds s.currentVotingRound).winningProjectId,
          (s2.votingRounds s.currentVotingRound).maxScore)) =
      (tallyOutcome scores s).toOption := by
  obtain ⟨w2, m2, ht⟩ := tallyProjects_bounded_ok scores
    (fun pid v => (s.votes s.currentVotingRound pid v).hasVoted)
    (s.votingRounds s.currentVotingRound).voters
    (s.votingRounds s.currentVotingRound).projectIds 0 0 0
    (by simpa using hsum)
  have hto : tallyOutcome scores s = .ok (w2, m2) := ht
  unfold processResults
  rw [hto]
  dsimp only
  rw [finalizeResults_ok w2 m2 s hcur]
  constructor
  · simp
  · simp

/-- Witness for `claim2_amended` at the pending state `sPend` with the
intended plaintexts `[5]`. -/
theorem claim2_amended_witness :
    ([5] : List Nat).sum ≤ 255 ∧ sPend.currentVotingRound < 255 ∧
    ((processResults 100 7 [5] sPend).toOption.map
        (fun s2 => (s2.currentVotingRound,
          (s2.votingRounds sPend.currentVotingRound).resultsRevealed)) =
      some (sPend.currentVotingRound + 1, true) ∧
    (processResults 100 7 [5] sPend).toOption.map
        (fun s2 =>
          ((s2.votingRounds sPend.currentVotingRound).winningProjectId,
            (s2.votingRounds sPend.currentVotingRound).maxScore)) =
      (tallyOutcome [5] sPend).toOption) :=
  ⟨by decide, by decide,
    claim2_amended sPend 100 7 [5] (by decide) (by decide)⟩

/-! ### Claim C3 -/

/-- Claim C3, counterexample: the reduction does not always select "the
first entry in snapshot order achieving the strict maximum aggregate". In
`sOpen1` (snapshot `[1]`, one recorded vote) with plaintexts `[0]` every
aggregate is 0; the first entry achieving the maximum aggregate is entry 1,
but the loop's winner stays at its initialiser 0, which is not an entry of
the round at all. -/
theorem claim3_counterexample :
    (tallyOutcome [0] sOpen1).toOption.map Prod.fst = some 0 ∧
    firstAchiever (roundAggs [0] sOpen1) = some 1 ∧
    (0 : Nat) ∉ (sOpen1.votingRounds 1).projectIds := by
  refine ⟨rfl, by decide, by decide⟩

/-- Claim C3, amended: given the snapshot order, the voter insertion order
and a plaintext list of exactly the batch length, the reduction computes for
each entry the sum of the plaintexts of its recorded votes, consumed in
snapshot order with voters in insertion order (`roundAggs`), and — provided
the per-entry sums fit in a uint8 and the maximum aggregate is positive —
selects the first entry in snapshot order achieving the maximum aggregate
(strictly-greater comparison, earlier entry wins ties). When every aggregate
is zero, the winner fields instead stay 0. The reduction is a pure function
of these inputs, so re-running it yields the same winner. -/
theorem claim3_amended (s : State) (scores : List Nat)
    (hlen : scores.length = (roundBatch s).length)
    (hbound : ∀ pr ∈ roundAggs scores s, pr.2 ≤ 255)
    (hpos : 0 < maxAggregate (roundAggs scores s)) :
    (tallyOutcome scores s).toOption.map Prod.fst =
      firstAchiever (roundAggs scores s) ∧
    (tallyOutcome scores s).toOption.map Prod.snd =
      some (maxAggregate (roundAggs scores s)) := by
  have hlen2 : 0 + totalVoted
      (fun pid v => (s.votes s.currentVotingRound pid v).hasVoted)
      (s.votingRounds s.currentVotingRound).voters
      (s.votingRounds s.currentVotingRound).projectIds ≤ scores.length := by
    rw [hlen, roundBatch_length]
    omega
  have ht : tallyOutcome scores s =
      .ok (selectFold (roundAggs scores s) (0, 0)) :=
    tallyProjects_exact scores
      (fun pid v => (s.votes s.currentVotingRound pid v).hasVoted)
      (s.votingRounds s.currentVotingRound).voters
      (s.votingRounds s.currentVotingRound).projectIds 0 0 0 hlen2 hbound
  have hsf := selectFold_find (roundAggs scores s) 0 0 hpos
  obtain ⟨pr, hmem, hpr⟩ := maxAggregate_attained (roundAggs scores s) hpos
  have hsome : ((roundAggs scores s).find?
      (fun pr => maxAggregate (roundAggs scores s) ≤ pr.2)).isSome = true :=
    List.find?_isSome.mpr ⟨pr, hmem, by simp [hpr]⟩
  obtain ⟨q, hq⟩ := Option.isSome_iff_exists.mp hsome
  have hqle : maxAggregate (roundAggs scores s) ≤ q.2 := by
    have h5 := List.find?_some hq
    simpa using h5
  have hq2 : q.2 = maxAggregate (roundAggs scores s) :=
    le_antisymm (mem_le_maxAggregate _ _ (List.mem_of_find?_eq_some hq)) hqle
  rw [ht, hsf, hq]
  constructor
  · simp [firstAchiever, hq]
  · simp [hq2]

/-- Witness for `claim3_amended` at the pending state `sPend` with the
intended plaintexts `[5]`: the single aggregate is `(entry 1, 5)` and the
reduction picks entry 1 with aggregate 5. -/
theorem claim3_amended_witness :
    (([5] : List Nat).length = (roundBatch sPend).length ∧
      (∀ pr ∈ roundAggs [5] sPend, pr.2 ≤ 255) ∧
      0 < maxAggregate (roundAggs [5] sPend)) ∧
    (tallyOutcome [5] sPend).toOption.map Prod.fst =
      firstAchiever (roundAggs [5] sPend) ∧
    (tallyOutcome [5] sPend).toOption.map Prod.snd =
      some (maxAggregate (roundAggs [5] sPend)) :=
  ⟨⟨by decide, by decide, by decide⟩,
    claim3_amended sPend [5] (by decide) (by decide) (by decide)⟩

/-! ### Claim C6 -/

/-- Claim C6, counterexample: the callback performs no length check. In the
pending state `sPend` the recorded batch has one scalar, yet
`processResults` with an empty plaintext list succeeds silently (the vote
contributes nothing, the round finalizes with a zero winner) instead of
failing with `Mismatch`. -/
theorem claim6_counterexample :
    (roundBatch sPend).length = 1 ∧
    (processResults 100 9 [] sPend).toOption.map
        (fun s2 => ((s2.votingRounds 1).winningProjectId,
          (s2.votingRounds 1).maxScore, s2.currentVotingRound)) =
      some (0, 0, 2) := by
  exact ⟨by decide, rfl⟩

/-- Claim C6, amended: `processResults` performs no plaintext/batch length
comparison and never fails with `Mismatch`: (absent uint8 overflow) it
succeeds for a plaintext list of any length — votes beyond a shorter list
simply contribute nothing — and plaintexts beyond the recorded batch are
ignored: appending extra plaintexts to a full-length list leaves the result
unchanged. -/
theorem claim6_amended (s : State) (sender rid : Nat)
    (scores extra : List Nat)
    (hsum : scores.sum ≤ 255) (hcur : s.currentVotingRound < 255) :
    (processResults sender rid scores s).isOk = true ∧
    (scores.length = (roundBatch s).length →
      processResults sender rid (scores ++ extra) s =
        processResults sender rid scores s) := by
  constructor
  · obtain ⟨w2, m2, ht⟩ := tallyProjects_bounded_ok scores
      (fun pid v => (s.votes s.currentVotingRound pid v).hasVoted)
      (s.votingRounds s.currentVotingRound).voters
      (s.votingRounds s.currentVotingRound).projectIds 0 0 0
      (by simpa using hsum)
    have hto : tallyOutcome scores s = .ok (w2, m2) := ht
    unfold processResults
    rw [hto]
    dsimp only
    rw [finalizeResults_ok w2 m2 s hcur]
    rfl
  · intro hl
    have hto : tallyOutcome (scores ++ extra) s = tallyOutcome scores s :=
      tallyProjects_append scores extra
        (fun pid v => (s.votes s.currentVotingRound pid v).hasVoted)
        (s.votingRounds s.currentVotingRound).voters
        (s.votingRounds s.currentVotingRound).projectIds 0 0 0
        (by rw [hl, roundBatch_length]; omega)
    unfold processResults
    rw [hto]

/-- Witness for `claim6_amended` at `sPend` with the full-length list `[5]`
and extra plaintexts `[9]`. -/
theorem claim6_amended_witness :
    (([5] : List Nat).sum ≤ 255 ∧ sPend.currentVotingRound < 255) ∧
    (processResults 100 7 [5] sPend).isOk = true ∧
    (([5] : List Nat).length = (roundBatch sPend).length →
      processResults 100 7 ([5] ++ [9]) sPend =
        processResults 100 7 [5] sPend) :=
  ⟨⟨by decide, by decide⟩,
    claim6_amended sPend 100 7 [5] [9] (by decide) (by decide)⟩

/-! ### Claim C9 -/

theorem totalProjects_applyOp_authorize (s : State) (a b : Nat) :
    (applyOp s (.authorize a b)).totalProjects = s.totalProjects := by
  simp only [applyOp, stepOp]
  cases hst : authorizeVoter a b s with
  | error e => rfl
  | ok s2 => rw [authorizeVoter_ok hst]

theorem totalProjects_applyOp_revoke (s : State) (a b : Nat) :
    (applyOp s (.revoke a b)).totalProjects = s.totalProjects := by
  simp only [applyOp, stepOp]
  cases hst : revokeVoter a b s with
  | error e => rfl
  | ok s2 => rw [revokeVoter_ok hst]

theorem totalProjects_applyOp_startRound (s : State) (a t : Nat)
    (pids : List Nat) :
    (applyOp s (.startRound a t pids)).totalProjects = s.totalProjects := by
  simp only [applyOp, stepOp]
  cases hst : startVotingRound a t pids s with
  | error e => rfl
  | ok s2 => rw [startVotingRound_ok hst]

theorem totalProjects_applyOp_submit (s : State) (a t pid sc : Nat) :
    (applyOp s (.submit a t pid sc)).totalProjects = s.totalProjects := by
  simp only [applyOp, stepOp]
  cases hst : submitVote a t pid sc s with
  | error e => rfl
  | ok s2 => rw [(submitVote_ok hst).2]

theorem totalProjects_applyOp_endRound (s : State) (a t : Nat) :
    (applyOp s (.endRound a t)).totalProjects = s.totalProjects := by
  simp only [applyOp, stepOp]
  cases hev : endVotingRound a t s with
  | error e => rfl
  | ok pr =>
    rcases endVotingRound_ok hev with ⟨s2, hfin, hpr⟩ | hpr
    · obtain ⟨_, hs2⟩ := finalizeResults_ok_inv hfin
      rw [hpr, hs2]
      rfl
    · rw [hpr]
      rfl

theorem totalProjects_applyOp_process (s : State) (a rid : Nat)
    (scores : List Nat) :
    (applyOp s (.process a rid scores)).totalProjects = s.totalProjects := by
  simp only [applyOp, stepOp]
  cases hst : processResults a rid scores s with
  | error e => rfl
  | ok s2 =>
    obtain ⟨w, m, _, hfin⟩ := processResults_ok hst
    obtain ⟨_, hs2⟩ := finalizeResults_ok_inv hfin
    rw [hs2]

theorem totalProjects_applyOp_deactivate (s : State) (a eid : Nat) :
    (applyOp s (.deactivateOp a eid)).totalProjects = s.totalProjects := by
  simp only [applyOp, stepOp]
  cases hst : deactivate a eid s with
  | error e => rfl
  | ok s2 => rw [deactivate_ok hst]

/-- Main invariant behind claim C9: from any storage whose id counter is a
valid uint8, a transaction sequence assigns exactly the next consecutive
ids, and the counter is monotone and never exceeds 255. -/
theorem proposedIds_spec :
    ∀ (ops : List Op) (s : State), s.totalProjects ≤ 255 →
      proposedIds s ops =
        List.range' (s.totalProjects + 1)
          ((runOps s ops).totalProjects - s.totalProjects) ∧
      s.totalProjects ≤ (runOps s ops).totalProjects ∧
      (runOps s ops).totalProjects ≤ 255 := by
  intro ops
  induction ops with
  | nil =>
    intro s hs
    refine ⟨?_, le_refl _, hs⟩
    show ([] : List Nat) = List.range' (s.totalProjects + 1)
      (s.totalProjects - s.totalProjects)
    rw [Nat.sub_self]
    rfl
  | cons op rest ih =>
    intro s hs
    cases op with
    | propose sender time nm ds ct =>
      by_cases h255 : 255 ≤ s.totalProjects
      · have hpp : proposeProject sender time nm ds ct s =
            .error .Overflow := by
          unfold proposeProject
          rw [if_pos h255]
        have happ : applyOp s (.propose sender time nm ds ct) = s := by
          simp only [applyOp, stepOp, hpp]
        have hpi : proposedIds s (Op.propose sender time nm ds ct :: rest) =
            proposedIds s rest := by
          simp only [proposedIds, hpp]
        have hrun : runOps s (Op.propose sender time nm ds ct :: rest) =
            runOps s rest := by
          show runOps (applyOp s (Op.propose sender time nm ds ct)) rest =
            runOps s rest
          rw [happ]
        rw [hpi, hrun]
        exact ih s hs
      · cases hst : proposeProject sender time nm ds ct s with
        | error e =>
          exfalso
          unfold proposeProject at hst
          rw [if_neg h255] at hst
          exact Except.noConfusion hst
        | ok s2 =>
          have htp2 : s2.totalProjects = s.totalProjects + 1 := by
            rw [proposeProject_ok hst]
          have happ : applyOp s (.propose sender time nm ds ct) = s2 := by
            simp only [applyOp, stepOp, hst]
          have hpi : proposedIds s (Op.propose sender time nm ds ct :: rest) =
              (s.totalProjects + 1) :: proposedIds s2 rest := by
            simp only [proposedIds, hst]
          have hrun : runOps s (Op.propose sender time nm ds ct :: rest) =
              runOps s2 rest := by
            show runOps (applyOp s (Op.propose sender time nm ds ct)) rest =
              runOps s2 rest
            rw [happ]
          obtain ⟨e1, e2, e3⟩ := ih s2 (by omega)
          rw [hpi, hrun, e1, htp2]
          rw [htp2] at e2
          refine ⟨?_, by omega, e3⟩
          have hsub : (runOps s2 rest).totalProjects - s.totalProjects =
              ((runOps s2 rest).totalProjects - (s.totalProjects + 1)) + 1 :=
            by omega
          rw [hsub, List.range'_succ]
    | authorize sender voter =>
      obtain ⟨e1, e2, e3⟩ := ih (applyOp s (.authorize sender voter))
        (by rw [totalProjects_applyOp_authorize]; exact hs)
      rw [totalProjects_applyOp_authorize] at e1 e2
      exact ⟨e1, e2, e3⟩
    | revoke sender voter =>
      obtain ⟨e1, e2, e3⟩ := ih (applyOp s (.revoke sender voter))
        (by rw [totalProjects_applyOp_revoke]; exact hs)
      rw [totalProjects_applyOp_revoke] at e1 e2
      exact ⟨e1, e2, e3⟩
    | startRound sender time pids =>
      obtain ⟨e1, e2, e3⟩ := ih (applyOp s (.startRound sender time pids))
        (by rw [totalProjects_applyOp_startRound]; exact hs)
      rw [totalProjects_applyOp_startRound] at e1 e2
      exact ⟨e1, e2, e3⟩
    | submit sender time pid score =>
      obtain ⟨e1, e2, e3⟩ := ih (applyOp s (.submit sender time pid score))
        (by rw [totalProjects_applyOp_submit]; exact hs)
      rw [totalProjects_applyOp_submit] at e1 e2
      exact ⟨e1, e2, e3⟩
    | endRound sender time =>
      obtain ⟨e1, e2, e3⟩ := ih (applyOp s (.endRound sender time))
        (by rw [totalProjects_applyOp_endRound]; exact hs)
      rw [totalProjects_applyOp_endRound] at e1 e2
      exact ⟨e1, e2, e3⟩
    | process sender rid scores =>
      obtain ⟨e1, e2, e3⟩ := ih (applyOp s (.process sender rid scores))
        (by rw [totalProjects_applyOp_process]; exact hs)
      rw [totalProjects_applyOp_process] at e1 e2
      exact ⟨e1, e2, e3⟩
    | deactivateOp sender entryId =>
      obtain ⟨e1, e2, e3⟩ := ih (applyOp s (.deactivateOp sender entryId))
        (by rw [totalProjects_applyOp_deactivate]; exact hs)
      rw [totalProjects_applyOp_deactivate] at e1 e2
      exact ⟨e1, e2, e3⟩

/-- Claim C9: over every transaction sequence from deployment, the ids
assigned by successful `proposeProject` calls are exactly `1, 2, …, k` in
order — strictly increasing, starting at 1, never reused or reassigned
(deactivation touches only the active flag) — and the uint8 counter never
wraps: it stays at most 255, the 256th proposal reverting instead of
recycling an id. -/
theorem claim9_propose_ids (deployer : Nat) (ops : List Op) :
    proposedIds (initialState deployer) ops =
      List.range' 1 ((runOps (initialState deployer) ops).totalProjects) ∧
    List.Pairwise (fun a b => a < b) (proposedIds (initialState deployer) ops) ∧
    (proposedIds (initialState deployer) ops).Nodup ∧
    (runOps (initialState deployer) ops).totalProjects ≤ 255 := by
  obtain ⟨e1, e2, e3⟩ := proposedIds_spec ops (initialState deployer)
    (by show (0 : Nat) ≤ 255; omega)
  have e1' : proposedIds (initialState deployer) ops =
      List.range' 1 ((runOps (initialState deployer) ops).totalProjects) := by
    rw [e1]
    show List.range' (0 + 1)
        ((runOps (initialState deployer) ops).totalProjects - 0) =
      List.range' 1 ((runOps (initialState deployer) ops).totalProjects)
    rw [Nat.zero_add, Nat.sub_zero]
  have hpw : List.Pairwise (fun a b => a < b)
      (proposedIds (initialState deployer) ops) := by
    rw [e1']
    exact List.pairwise_lt_range' 1 _
  exact ⟨e1', hpw, hpw.imp (fun h => Nat.ne_of_lt h), e3⟩

end CulturalVoting
